import Mathlib

/-!
Shallow embedding of the memoizing cache layer of the yaml repository:
the bounded LRU store and instrumented cache (`src/cache/lru-cache.ts`),
the string hashing utility, and the `parse` / `stringify` /
`parseDocument` adapters of the public API (`src/index.ts`).

JavaScript `Map` objects are modelled as association lists in insertion
order (head = oldest entry); a stored JavaScript `undefined` value is
modelled as `Option.none` in the value slot, so an entry slot has type
`Option W`.  Machine integers arising in `hashString` are modelled as
`Int` with an explicit wrap to the interval `[-2^31, 2^31)`.
-/

set_option autoImplicit false

namespace Yaml

universe u v

variable {K : Type u} {W : Type v}

/-- First-match lookup in an association list (JS `Map.get`, except that
it returns the raw stored slot: `none` means the key is absent). -/
def lookupKey [DecidableEq K] : List (K × W) → K → Option W
  | [], _ => none
  | (k', v) :: tl, k => if k = k' then some v else lookupKey tl k

/-- Remove the first entry with the given key (JS `Map.delete`; a `Map`
has at most one entry per key). -/
def eraseKey [DecidableEq K] : List (K × W) → K → List (K × W)
  | [], _ => []
  | (k', v) :: tl, k => if k = k' then tl else (k', v) :: eraseKey tl k

/-- The bounded LRU store of `src/cache/lru-cache.ts` (`class LRUCache`).
`cache` is the backing `Map` in insertion order; a slot value of `none`
models a stored JavaScript `undefined`. -/
structure LRUCache (K : Type u) (W : Type v) : Type (max u v) where
  cache : List (K × Option W)
  maxSize : Nat

namespace LRUCache

variable [DecidableEq K]

/-- JS `Map.get`: `undefined` both when the key is absent and when the
stored value is itself `undefined`. -/
def mapGet (c : LRUCache K W) (k : K) : Option W :=
  (lookupKey c.cache k).join

/-- `LRUCache.get`: on a defined value, delete and re-insert at the end
(most recently used); otherwise return `undefined` unchanged. -/
def get (c : LRUCache K W) (k : K) : Option W × LRUCache K W :=
  match c.mapGet k with
  | some v => (some v, { c with cache := eraseKey c.cache k ++ [(k, some v)] })
  | none => (none, c)

/-- `LRUCache.set`: delete an existing entry to re-add at the end; else
if at capacity, delete the first (oldest) entry; then insert at the end.
When the map is empty, `keys().next().value` is `undefined` and the
delete is a no-op, so "drop the head if nonempty" is exact. -/
def set (c : LRUCache K W) (k : K) (v : Option W) : LRUCache K W :=
  if (lookupKey c.cache k).isSome then
    { c with cache := eraseKey c.cache k ++ [(k, v)] }
  else if c.maxSize ≤ c.cache.length then
    { c with cache := c.cache.tail ++ [(k, v)] }
  else
    { c with cache := c.cache ++ [(k, v)] }

/-- `LRUCache.has`: JS `Map.has`, true even when the stored value is
`undefined`. -/
def has (c : LRUCache K W) (k : K) : Bool :=
  (lookupKey c.cache k).isSome

/-- `LRUCache.clear`. -/
def clear (c : LRUCache K W) : LRUCache K W :=
  { c with cache := [] }

/-- `LRUCache.size` accessor. -/
def size (c : LRUCache K W) : Nat :=
  c.cache.length

/-- Keys of the backing map are pairwise distinct: the invariant every
state reachable from a JS `Map` satisfies. -/
def KeysNodup (c : LRUCache K W) : Prop :=
  (c.cache.map Prod.fst).Nodup

instance (c : LRUCache K W) : Decidable c.KeysNodup := by
  unfold KeysNodup; infer_instance

end LRUCache

/-- Signed 32-bit wrap: the effect of JS `|`-free bitwise coercion
(`hash & hash`) on an exact intermediate result. -/
def toInt32 (n : Int) : Int :=
  (n + 2 ^ 31) % 2 ^ 32 - 2 ^ 31

/-- One iteration of the `hashString` loop:
`hash = ((hash << 5) - hash) + char; hash = hash & hash`.  The shift
coerces to 32 bits; the subtraction and addition are exact in doubles at
these magnitudes; the final `& hash` wraps to 32 bits. -/
def hashStep (h : Int) (c : Nat) : Int :=
  toInt32 (toInt32 (h * 32) - h + c)

/-- Digit character for base 36 (`0`-`9` then `a`-`z`), as produced by
JS `Number.prototype.toString(36)`. -/
def digit36 (n : Nat) : Char :=
  if n < 10 then Char.ofNat (48 + n) else Char.ofNat (87 + n)

/-- Base-36 digits of a natural number, most significant first.  Fuel
recursion (`n + 1` units always suffice since `n / 36 < n` for
`n ≥ 36`). -/
def natToBase36Aux : Nat → Nat → List Char
  | 0, _ => []
  | fuel + 1, n =>
    if n < 36 then [digit36 n]
    else natToBase36Aux fuel (n / 36) ++ [digit36 (n % 36)]

/-- JS `n.toString(36)` for a (32-bit) integer: minus sign followed by
the base-36 digits of the absolute value. -/
def intToBase36 (i : Int) : String :=
  if i < 0 then "-" ++ ⟨natToBase36Aux (i.natAbs + 1) i.natAbs⟩
  else ⟨natToBase36Aux (i.toNat + 1) i.toNat⟩

/-- `hashString` of `src/cache/lru-cache.ts`: the 32-bit rolling hash
rendered in base 36.  `charCodeAt` is modelled as the character's code
point (they agree on all ASCII input). -/
def hashString (s : String) : String :=
  intToBase36 (s.data.foldl (fun h c => hashStep h c.toNat) 0)

/-- The immutable statistics snapshot exposed by the instrumented cache.
The JS floating-point `hitRate` is modelled as an exact rational. -/
structure Stats : Type where
  hits : Nat
  misses : Nat
  hitRate : ℚ
  size : Nat
  deriving DecidableEq, Repr

/-- `class TrackedLRUCache extends LRUCache`, adding hit/miss counters.
`set`, `has`, `clear` and `size` are inherited unchanged. -/
structure TrackedLRUCache (K : Type u) (W : Type v) : Type (max u v) where
  base : LRUCache K W
  hits : Nat
  misses : Nat

namespace TrackedLRUCache

variable [DecidableEq K]

/-- `TrackedLRUCache.get`: delegate to the base `get`, then count a hit
on a defined result and a miss otherwise. -/
def get (c : TrackedLRUCache K W) (k : K) : Option W × TrackedLRUCache K W :=
  match c.base.get k with
  | (some v, b) => (some v, { c with base := b, hits := c.hits + 1 })
  | (none, b) => (none, { c with base := b, misses := c.misses + 1 })

/-- Inherited `set`. -/
def set (c : TrackedLRUCache K W) (k : K) (v : Option W) : TrackedLRUCache K W :=
  { c with base := c.base.set k v }

/-- Inherited `has`. -/
def has (c : TrackedLRUCache K W) (k : K) : Bool :=
  c.base.has k

/-- Inherited `clear`: empties the store, does not touch the counters. -/
def clear (c : TrackedLRUCache K W) : TrackedLRUCache K W :=
  { c with base := c.base.clear }

/-- Inherited `size`. -/
def size (c : TrackedLRUCache K W) : Nat :=
  c.base.size

/-- `get hitRate()`: `total === 0 ? 0 : hits / total`. -/
def hitRate (c : TrackedLRUCache K W) : ℚ :=
  if c.hits + c.misses = 0 then 0 else (c.hits : ℚ) / ((c.hits : ℚ) + (c.misses : ℚ))

/-- `get stats()`. -/
def stats (c : TrackedLRUCache K W) : Stats :=
  { hits := c.hits, misses := c.misses, hitRate := c.hitRate, size := c.size }

/-- `resetStats()`: zeroes the counters, leaves the store alone. -/
def resetStats (c : TrackedLRUCache K W) : TrackedLRUCache K W :=
  { c with hits := 0, misses := 0 }

end TrackedLRUCache

/-! Operation sequences over the two cache layers, for stating
invariants that hold after every operation. -/

/-- One operation on the bare LRU store. -/
inductive LOp (K : Type u) (W : Type v) : Type (max u v)
  | get (k : K)
  | set (k : K) (v : Option W)
  | has (k : K)
  | clear

/-- Apply one operation to an LRU store (results of `get`/`has` are
discarded; only the state matters here). -/
def LRUCache.step [DecidableEq K] (c : LRUCache K W) : LOp K W → LRUCache K W
  | .get k => (c.get k).2
  | .set k v => c.set k v
  | .has _ => c
  | .clear => c.clear

/-- Run a sequence of operations on an LRU store. -/
def LRUCache.runOps [DecidableEq K] (c : LRUCache K W) (ops : List (LOp K W)) :
    LRUCache K W :=
  ops.foldl LRUCache.step c

/-- A freshly constructed store of the given capacity (`new Map()`). -/
def LRUCache.empty (K : Type u) (W : Type v) (cap : Nat) : LRUCache K W :=
  ⟨[], cap⟩

/-- The state invariant of the bounded store: distinct keys, and the
size bound the implementation actually maintains (`max maxSize 1`
rather than `maxSize`: a store of capacity `0` still accepts one
entry). -/
def LRUCache.Inv (c : LRUCache K W) : Prop :=
  c.KeysNodup ∧ c.size ≤ max c.maxSize 1

/-- One operation on the instrumented cache. -/
inductive TOp (K : Type u) (W : Type v) : Type (max u v)
  | get (k : K)
  | set (k : K) (v : Option W)
  | has (k : K)
  | clear

/-- Whether an operation is a `get` (the only counter-touching one). -/
def TOp.isGet : TOp K W → Bool
  | .get _ => true
  | _ => false

/-- The number of `get` operations in a sequence. -/
def countGets (ops : List (TOp K W)) : Nat :=
  ops.countP fun op => op.isGet

/-- Apply one operation to the instrumented cache. -/
def TrackedLRUCache.step [DecidableEq K] (c : TrackedLRUCache K W) :
    TOp K W → TrackedLRUCache K W
  | .get k => (c.get k).2
  | .set k v => c.set k v
  | .has _ => c
  | .clear => c.clear

/-- Run a sequence of operations on the instrumented cache. -/
def TrackedLRUCache.runOps [DecidableEq K] (c : TrackedLRUCache K W)
    (ops : List (TOp K W)) : TrackedLRUCache K W :=
  ops.foldl TrackedLRUCache.step c

/-! JSON serialization of flat options objects (`JSON.stringify` on the
objects the cache-key derivation serializes). -/

/-- A primitive JSON field value as it occurs in an options object. -/
inductive JsonVal : Type
  | num (n : Int)
  | str (s : String)
  | bool (b : Bool)
  | null
  deriving DecidableEq

/-- `JSON.stringify` escaping for one character of a string literal. -/
def jsonEscapeChar (c : Char) : String :=
  if c = '"' then "\\\""
  else if c = '\\' then "\\\\"
  else if c = '\n' then "\\n"
  else if c = '\r' then "\\r"
  else if c = '\t' then "\\t"
  else String.singleton c

/-- A JSON string literal: quoted and escaped. -/
def jsonQuote (s : String) : String :=
  "\"" ++ String.join (s.data.map jsonEscapeChar) ++ "\""

/-- Rendering of a primitive JSON value. -/
def JsonVal.render : JsonVal → String
  | .num n => toString n
  | .str s => jsonQuote s
  | .bool b => if b then "true" else "false"
  | .null => "null"

/-- An options object: its fields with their values, in insertion
order (the order `JSON.stringify` serializes them in). -/
abbrev OptionsObj : Type := List (String × JsonVal)

/-- `JSON.stringify` of a flat options object: fields serialized in
insertion order, with no canonicalization. -/
def jsonStringify (o : OptionsObj) : String :=
  "\x7b" ++ String.intercalate ","
    (o.map fun f => jsonQuote f.1 ++ ":" ++ f.2.render) ++ "\x7d"

/-- Lexicographic comparison of character lists by code point. -/
def charListLe : List Char → List Char → Bool
  | [], _ => true
  | _ :: _, [] => false
  | a :: as, b :: bs =>
    if a.toNat < b.toNat then true
    else if b.toNat < a.toNat then false
    else charListLe as bs

/-- Field order by name, for the canonical sorted form. -/
def fieldLe (f g : String × JsonVal) : Bool :=
  charListLe f.1.data g.1.data

/-- Order-insensitive insertion of a field by name, for the canonical
(sorted) form used to state when two options objects are logically
identical. -/
def insertField (f : String × JsonVal) : OptionsObj → OptionsObj
  | [] => [f]
  | g :: tl => if fieldLe f g then f :: g :: tl else g :: insertField f tl

/-- Sort an options object's fields by name. -/
def sortFields : OptionsObj → OptionsObj
  | [] => []
  | f :: tl => insertField f (sortFields tl)

/-- Two options objects are logically identical when they carry the
same fields with the same values, independent of insertion order. -/
def SameOptions (o₁ o₂ : OptionsObj) : Prop :=
  sortFields o₁ = sortFields o₂

instance (o₁ o₂ : OptionsObj) : Decidable (SameOptions o₁ o₂) := by
  unfold SameOptions; infer_instance

/-- Truthiness of a field read off an options object (absent, `false`,
`0`, `""` and `null` are falsy). -/
def truthyField (o : OptionsObj) (name : String) : Bool :=
  match lookupKey o name with
  | some (JsonVal.bool b) => b
  | some (JsonVal.num n) => decide (n ≠ 0)
  | some (JsonVal.str s) => decide (s ≠ "")
  | some JsonVal.null => false
  | none => false

/-! The `parse` pipeline adapter. -/

/-- The parse cache key:
`hashString(src + JSON.stringify(options || {}) + (_reviver ? 'reviver' : ''))`. -/
def parseKey (src : String) (options : Option OptionsObj) (hasReviver : Bool) :
    String :=
  hashString (src ++ jsonStringify (options.getD []) ++
    if hasReviver then "reviver" else "")

/-- The observable pieces of the document `parse` reads: its error and
warning messages, whether its options' log level is `'silent'`, and its
native-value projection `doc.toJS` (where `none` models JS `null`). -/
structure DocRes (V : Type) : Type where
  errors : List String
  warnings : List String
  silent : Bool
  value : Option V

/-- The external parse/compose engine together with `toJS`, as one
opaque deterministic collaborator: source text, options, and whether a
reviver is applied, to at most one document.  Modelled from the spec:
the engine itself (`Parser`, `Composer`, `Document.toJS`) is the
external collaborator this layer sits in front of. -/
abbrev ParseEngine (V : Type) : Type :=
  String → Option OptionsObj → Bool → Option (DocRes V)

/-- The second positional argument of `parse`: absent, a reviver
function, or an options object. -/
inductive ParseArg2 : Type
  | noArg
  | reviverFn
  | optsObj (o : OptionsObj)
  deriving DecidableEq

/-- The runtime overload resolution at the top of `parse`: a function
in the second slot becomes the reviver; an object there with an
undefined third argument becomes the options.  Returns
(reviver present, effective options). -/
def resolveParseArgs : ParseArg2 → Option OptionsObj → Bool × Option OptionsObj
  | .reviverFn, opts => (true, opts)
  | .optsObj o, none => (false, some o)
  | .optsObj _, some opts => (false, some opts)
  | .noArg, opts => (false, opts)

/-- The body of `parse` after overload resolution: compute the cache
key; on a reviver-free call consult the parse cache and return a cached
value immediately; on a miss (or any reviver-bearing call) run the
engine, then either store a `null` sentinel for a document-less stream,
raise the first error (unless the document's log level is silent, in
which case errors are dropped), and finally populate the cache on
cacheable calls.  `Except.error e` models `throw doc.errors[0]`;
`Except.ok none` models returning JS `null`. -/
def parseRun {V : Type} (engine : ParseEngine V)
    (st : TrackedLRUCache String (Option V)) (src : String)
    (arg2 : ParseArg2) (argOpts : Option OptionsObj) :
    Except String (Option V) × TrackedLRUCache String (Option V) :=
  let ro := resolveParseArgs arg2 argOpts
  let hasReviver := ro.1
  let options := ro.2
  let cacheKey := parseKey src options hasReviver
  if hasReviver then
    match engine src options true with
    | none => (Except.ok none, st)
    | some doc =>
      match doc.errors, doc.silent with
      | e :: _, false => (Except.error e, st)
      | _, _ => (Except.ok doc.value, st)
  else
    match st.get cacheKey with
    | (some v, st₁) => (Except.ok v, st₁)
    | (none, st₁) =>
      match engine src options false with
      | none => (Except.ok none, st₁.set cacheKey (some none))
      | some doc =>
        match doc.errors, doc.silent with
        | e :: _, false => (Except.error e, st₁)
        | _, _ => (Except.ok doc.value, st₁.set cacheKey (some doc.value))

/-! The `stringify` pipeline adapter. -/

/-- A JS number as `stringify` discriminates it: an ordinary finite
value (`+0` included), negative zero, `NaN`, or an infinity. -/
inductive JSNum : Type
  | fin (q : ℚ)
  | negZero
  | nan
  | inf
  | negInf
  deriving DecidableEq

/-- `isFinite(value)` (note that `-0` is finite). -/
def JSNum.isFiniteNum : JSNum → Bool
  | .fin _ => true
  | .negZero => true
  | _ => false

/-- A JS value as `stringify` discriminates it: the cacheable
primitives, plus `undefined`, arrays, plain objects, and pre-built
`Document` instances (whose contents the decision layer never
inspects). -/
inductive SVal : Type
  | undef
  | null
  | bool (b : Bool)
  | str (s : String)
  | num (n : JSNum)
  | arr
  | obj
  | document
  deriving DecidableEq

/-- `isDocument(value)`. -/
def isDocumentVal : SVal → Bool
  | .document => true
  | _ => false

/-- The cacheability allow-list of `stringify`:
`valueType === 'string' || valueType === 'boolean' ||
 (valueType === 'number' && isFinite(value) && !Object.is(value, -0)) ||
 value === null`. -/
def canCacheVal : SVal → Bool
  | .str _ => true
  | .bool _ => true
  | .num n => n.isFiniteNum && decide (n ≠ JSNum.negZero)
  | .null => true
  | _ => false

/-- `JSON.stringify(value)` on the values reaching the stringify cache
key.  The decimal rendering of a finite JS number is the host's
float-to-string conversion, passed in as `numToStr`; the composite and
undefined branches never reach the key computation. -/
def jsonOfSVal (numToStr : ℚ → String) : SVal → String
  | .str s => jsonQuote s
  | .bool b => if b then "true" else "false"
  | .null => "null"
  | .num (.fin q) => numToStr q
  | .num .negZero => "0"
  | .num .nan => "null"
  | .num .inf => "null"
  | .num .negInf => "null"
  | .undef => ""
  | .arr => ""
  | .obj => ""
  | .document => ""

/-- The options argument of `stringify`: absent, a bare string, a bare
number, or an options object. -/
inductive StrOptArg : Type
  | noOpt
  | strOpt (s : String)
  | numOpt (q : ℚ)
  | objOpt (o : OptionsObj)
  deriving DecidableEq

/-- The replacer argument of `stringify`. -/
inductive ReplArg : Type
  | noRepl
  | funcRepl
  | arrRepl
  | objRepl (o : OptionsObj)
  deriving DecidableEq

/-- `typeof replacer === 'function' || Array.isArray(replacer)`. -/
def ReplArg.isFnOrArr : ReplArg → Bool
  | .funcRepl => true
  | .arrRepl => true
  | _ => false

/-- The runtime overload resolution at the top of `stringify`: a
function or array in the replacer slot becomes the replacer; otherwise
a truthy replacer argument with an undefined options argument becomes
the options.  Returns (replacer present, effective options argument). -/
def resolveStringifyArgs (r : ReplArg) (o : StrOptArg) : Bool × StrOptArg :=
  if r.isFnOrArr then (true, o)
  else
    match o, r with
    | .noOpt, .objRepl oo => (false, .objOpt oo)
    | _, _ => (false, o)

/-- JS `Math.round`: halves round toward positive infinity. -/
def jsRound (q : ℚ) : Int :=
  ⌊q + 1 / 2⌋

/-- The bare-number legacy form:
`const indent = Math.round(options);
 options = indent < 1 ? undefined : indent > 8 ? { indent: 8 } : { indent }`. -/
def normalizeIndentNum (q : ℚ) : Option OptionsObj :=
  let indent := jsRound q
  if indent < 1 then none
  else if 8 < indent then some [("indent", JsonVal.num 8)]
  else some [("indent", JsonVal.num indent)]

/-- Normalization of the legacy convenience forms of the options
argument: a bare string becomes its length and then follows the bare
number rule. -/
def normalizeStrOpt : StrOptArg → Option OptionsObj
  | .noOpt => none
  | .objOpt o => some o
  | .strOpt s => normalizeIndentNum (s.length : ℚ)
  | .numOpt q => normalizeIndentNum q

/-- The stringify cache key:
`hashString(JSON.stringify(value) + JSON.stringify(options || {}))`. -/
def stringifyKey (numToStr : ℚ → String) (value : SVal)
    (options : Option OptionsObj) : String :=
  hashString (jsonOfSVal numToStr value ++ jsonStringify (options.getD []))

/-- The body of `stringify`: overload resolution, legacy option
normalization, the `undefined` early return, and the primitive-value
cache fast path.  `render value replacerPresent options` stands for
`new Document(value, replacer, options).toString(options)` and
`renderDoc options` for `value.toString(options)` on a pre-built
document — the opaque serialization engine.  The result is the produced
text, `none` modelling a returned JS `undefined`. -/
def stringifyRun (render : SVal → Bool → Option OptionsObj → String)
    (renderDoc : Option OptionsObj → String) (numToStr : ℚ → String)
    (st : TrackedLRUCache String String) (value : SVal)
    (replacer : ReplArg) (optArg : StrOptArg) :
    Option String × TrackedLRUCache String String :=
  let ra := resolveStringifyArgs replacer optArg
  let hasRepl := ra.1
  let options := normalizeStrOpt ra.2
  let keepUndef : Bool :=
    match options with
    | some o => truthyField o "keepUndefined"
    | none =>
      match replacer with
      | .objRepl o => truthyField o "keepUndefined"
      | _ => false
  if value == SVal.undef && !keepUndef then
    (none, st)
  else if !hasRepl && !isDocumentVal value && canCacheVal value then
    let cacheKey := stringifyKey numToStr value options
    match st.get cacheKey with
    | (some s, st₁) => (some s, st₁)
    | (none, st₁) =>
      let result := render value false options
      (some result, st₁.set cacheKey (some result))
  else if isDocumentVal value && !hasRepl then
    (some (renderDoc options), st)
  else
    (some (render value hasRepl options), st)

/-! `parseDocument` and its multiple-documents guard. -/

/-- One entry of a document's error list: a structural error produced
by the engine, or the `MULTIPLE_DOCS` `YAMLParseError` that
`parseDocument` synthesizes, carrying the first two components of the
offending document's range. -/
inductive YError : Type
  | engine (msg : String)
  | multipleDocs (range : Nat × Nat)
  deriving DecidableEq

/-- The pieces of one composed document that `parseDocument` reads: its
range `[start, value-end, node-end]`, its error list, and whether its
options' log level is `'silent'`.  Modelled from the spec: the composer
producing the document stream is the external engine. -/
structure ComposedDoc : Type where
  range : Nat × Nat × Nat
  errors : List YError
  silent : Bool
  deriving DecidableEq

/-- The document loop of `parseDocument`: keep the first composed
document; on reaching a second one, if the held document's log level is
not silent, push the `MULTIPLE_DOCS` error (with the second document's
`range.slice(0, 2)`) and break, otherwise keep consuming and ignoring
documents.  The second component counts how many composed documents the
loop consumed. -/
def parseDocLoop : ComposedDoc → List ComposedDoc → Nat → ComposedDoc × Nat
  | doc, [], n => (doc, n)
  | doc, d :: rest, n =>
    if doc.silent then parseDocLoop doc rest (n + 1)
    else
      ({ doc with
          errors := doc.errors ++ [YError.multipleDocs (d.range.1, d.range.2.1)] },
        n + 1)

/-- `parseDocument` over the stream of composed documents.  `none` only
on an empty stream; the composer invoked with `forceDoc` always yields
at least one document. -/
def parseDocumentRun (docs : List ComposedDoc) : Option (ComposedDoc × Nat) :=
  match docs with
  | [] => none
  | d :: rest => some (parseDocLoop d rest 1)

/-! The process-wide cache pair and its maintenance entry points. -/

/-- The two module-level caches of `src/index.ts`. -/
structure GlobalCaches (V : Type) : Type where
  parseCache : TrackedLRUCache String (Option V)
  stringifyCache : TrackedLRUCache String String

/-- `clearCaches()`: clears both stores. -/
def clearCaches {V : Type} (g : GlobalCaches V) : GlobalCaches V :=
  { parseCache := g.parseCache.clear, stringifyCache := g.stringifyCache.clear }

/-- `getCacheStats()`. -/
def getCacheStats {V : Type} (g : GlobalCaches V) : Stats × Stats :=
  (g.parseCache.stats, g.stringifyCache.stats)

/-! Association-list lemmas. -/

section AssocLemmas

variable {K : Type u} {W : Type v} [DecidableEq K]

theorem lookupKey_eq_none_iff {l : List (K × W)} {k : K} :
    lookupKey l k = none ↔ k ∉ l.map Prod.fst := by
  induction l with
  | nil => simp [lookupKey]
  | cons p tl ih =>
    obtain ⟨k', v⟩ := p
    by_cases h : k = k' <;> simp [lookupKey, h, ih]

theorem lookupKey_append_of_none {l l' : List (K × W)} {k : K}
    (h : lookupKey l k = none) :
    lookupKey (l ++ l') k = lookupKey l' k := by
  induction l with
  | nil => rfl
  | cons p tl ih =>
    obtain ⟨k', v⟩ := p
    by_cases hk : k = k'
    · simp [lookupKey, hk] at h
    · simp only [lookupKey, if_neg hk] at h ⊢
      exact ih h

theorem lookupKey_append_last_self {l : List (K × W)} {k : K} {v : W}
    (h : lookupKey l k = none) :
    lookupKey (l ++ [(k, v)]) k = some v := by
  rw [lookupKey_append_of_none h]
  simp [lookupKey]

theorem eraseKey_sublist (l : List (K × W)) (k : K) :
    (eraseKey l k).Sublist l := by
  induction l with
  | nil => simp [eraseKey]
  | cons p tl ih =>
    obtain ⟨k', v⟩ := p
    by_cases h : k = k'
    · simp [eraseKey, h]
    · simpa [eraseKey, h] using ih.cons₂ (k', v)

theorem eraseKey_keys_sublist (l : List (K × W)) (k : K) :
    ((eraseKey l k).map Prod.fst).Sublist (l.map Prod.fst) :=
  (eraseKey_sublist l k).map Prod.fst

theorem lookupKey_eraseKey_self {l : List (K × W)} {k : K}
    (hn : (l.map Prod.fst).Nodup) :
    lookupKey (eraseKey l k) k = none := by
  induction l with
  | nil => rfl
  | cons p tl ih =>
    obtain ⟨k', v⟩ := p
    simp only [List.map_cons, List.nodup_cons] at hn
    by_cases h : k = k'
    · subst h
      simp only [eraseKey, if_pos rfl]
      exact lookupKey_eq_none_iff.2 hn.1
    · simp only [eraseKey, if_neg h, lookupKey, if_neg h]
      exact ih hn.2

theorem length_eraseKey_of_isSome {l : List (K × W)} {k : K}
    (h : (lookupKey l k).isSome) :
    (eraseKey l k).length + 1 = l.length := by
  induction l with
  | nil => simp [lookupKey] at h
  | cons p tl ih =>
    obtain ⟨k', v⟩ := p
    by_cases hk : k = k'
    · simp [eraseKey, hk]
    · simp only [lookupKey, if_neg hk] at h
      simp only [eraseKey, if_neg hk, List.length_cons]
      have := ih h
      omega

theorem length_eraseKey_lt_of_isSome {l : List (K × W)} {k : K}
    (h : (lookupKey l k).isSome) :
    (eraseKey l k).length < l.length := by
  have := length_eraseKey_of_isSome h
  omega

end AssocLemmas

/-! LRU store lemmas. -/

section LRULemmas

variable {K : Type u} {W : Type v} [DecidableEq K]

theorem lru_get_hit (c : LRUCache K W) {k : K} {v : W}
    (h : lookupKey c.cache k = some (some v)) :
    c.get k = (some v, ⟨eraseKey c.cache k ++ [(k, some v)], c.maxSize⟩) := by
  unfold LRUCache.get LRUCache.mapGet
  rw [h]
  rfl

theorem lru_get_miss (c : LRUCache K W) {k : K}
    (h : (lookupKey c.cache k).join = none) :
    c.get k = (none, c) := by
  unfold LRUCache.get LRUCache.mapGet
  rw [h]

theorem lru_set_existing (c : LRUCache K W) {k : K} (v : Option W)
    (h : (lookupKey c.cache k).isSome) :
    c.set k v = ⟨eraseKey c.cache k ++ [(k, v)], c.maxSize⟩ := by
  unfold LRUCache.set
  rw [if_pos h]

theorem lru_set_evict (c : LRUCache K W) {k : K} (v : Option W)
    (h : lookupKey c.cache k = none) (hcap : c.maxSize ≤ c.cache.length) :
    c.set k v = ⟨c.cache.tail ++ [(k, v)], c.maxSize⟩ := by
  unfold LRUCache.set
  rw [h]
  simp only [Option.isSome_none, Bool.false_eq_true, if_false, if_pos hcap]

theorem lru_set_fresh (c : LRUCache K W) {k : K} (v : Option W)
    (h : lookupKey c.cache k = none) (hcap : ¬c.maxSize ≤ c.cache.length) :
    c.set k v = ⟨c.cache ++ [(k, v)], c.maxSize⟩ := by
  unfold LRUCache.set
  rw [h]
  simp only [Option.isSome_none, Bool.false_eq_true, if_false, if_neg hcap]

theorem lookupKey_set_self (c : LRUCache K W) (k : K) (v : Option W)
    (hn : c.KeysNodup) :
    lookupKey (c.set k v).cache k = some v := by
  by_cases h : (lookupKey c.cache k).isSome
  · rw [lru_set_existing c v h]
    exact lookupKey_append_last_self (lookupKey_eraseKey_self hn)
  · rw [Option.not_isSome_iff_eq_none] at h
    have htl : lookupKey c.cache.tail k = none := by
      rw [lookupKey_eq_none_iff] at h ⊢
      intro hmem
      have hmem' : k ∈ (c.cache.map Prod.fst).tail := by
        rw [← List.map_tail]; exact hmem
      exact h (List.mem_of_mem_tail hmem')
    by_cases hcap : c.maxSize ≤ c.cache.length
    · rw [lru_set_evict c v h hcap]
      exact lookupKey_append_last_self htl
    · rw [lru_set_fresh c v h hcap]
      exact lookupKey_append_last_self h

theorem keysNodup_append_singleton {l : List (K × W)} {k : K} {v : W}
    (hn : (l.map Prod.fst).Nodup) (hk : lookupKey l k = none) :
    ((l ++ [(k, v)]).map Prod.fst).Nodup := by
  rw [List.map_append, List.nodup_append]
  refine ⟨hn, List.nodup_singleton k, ?_⟩
  intro a ha
  simp only [List.map_cons, List.map_nil, List.mem_singleton]
  intro hak
  subst hak
  exact (lookupKey_eq_none_iff.1 hk) ha

theorem keysNodup_set (c : LRUCache K W) (k : K) (v : Option W)
    (hn : c.KeysNodup) : (c.set k v).KeysNodup := by
  by_cases h : (lookupKey c.cache k).isSome
  · rw [lru_set_existing c v h]
    exact keysNodup_append_singleton ((eraseKey_keys_sublist c.cache k).nodup hn)
      (lookupKey_eraseKey_self hn)
  · rw [Option.not_isSome_iff_eq_none] at h
    have htl : lookupKey c.cache.tail k = none := by
      rw [lookupKey_eq_none_iff] at h ⊢
      intro hmem
      have hmem' : k ∈ (c.cache.map Prod.fst).tail := by
        rw [← List.map_tail]; exact hmem
      exact h (List.mem_of_mem_tail hmem')
    have hntl : (c.cache.tail.map Prod.fst).Nodup := by
      have : (c.cache.tail.map Prod.fst).Sublist (c.cache.map Prod.fst) :=
        (List.tail_sublist c.cache).map Prod.fst
      exact this.nodup hn
    by_cases hcap : c.maxSize ≤ c.cache.length
    · rw [lru_set_evict c v h hcap]
      exact keysNodup_append_singleton hntl htl
    · rw [lru_set_fresh c v h hcap]
      exact keysNodup_append_singleton hn h

theorem keysNodup_get (c : LRUCache K W) (k : K) (hn : c.KeysNodup) :
    (c.get k).2.KeysNodup := by
  match hl : lookupKey c.cache k with
  | some (some v) =>
    rw [lru_get_hit c hl]
    exact keysNodup_append_singleton ((eraseKey_keys_sublist c.cache k).nodup hn)
      (lookupKey_eraseKey_self hn)
  | some none =>
    rw [lru_get_miss c (by rw [hl]; rfl)]
    exact hn
  | none =>
    rw [lru_get_miss c (by rw [hl]; rfl)]
    exact hn

theorem size_set_le (c : LRUCache K W) (k : K) (v : Option W)
    (hs : c.size ≤ max c.maxSize 1) :
    (c.set k v).size ≤ max c.maxSize 1 := by
  unfold LRUCache.size at hs ⊢
  by_cases h : (lookupKey c.cache k).isSome
  · rw [lru_set_existing c v h]
    have := length_eraseKey_of_isSome h
    simp only [List.length_append, List.length_singleton]
    omega
  · rw [Option.not_isSome_iff_eq_none] at h
    by_cases hcap : c.maxSize ≤ c.cache.length
    · rw [lru_set_evict c v h hcap]
      have := c.cache.length_tail
      simp only [List.length_append, List.length_singleton]
      omega
    · rw [lru_set_fresh c v h hcap]
      simp only [List.length_append, List.length_singleton]
      omega

theorem size_get_eq (c : LRUCache K W) (k : K) :
    (c.get k).2.size = c.size := by
  unfold LRUCache.size
  match hl : lookupKey c.cache k with
  | some (some v) =>
    rw [lru_get_hit c hl]
    have := length_eraseKey_of_isSome (l := c.cache) (k := k) (by rw [hl]; rfl)
    simp only [List.length_append, List.length_singleton]
    omega
  | some none =>
    rw [lru_get_miss c (by rw [hl]; rfl)]
  | none =>
    rw [lru_get_miss c (by rw [hl]; rfl)]

theorem maxSize_get (c : LRUCache K W) (k : K) :
    (c.get k).2.maxSize = c.maxSize := by
  unfold LRUCache.get
  match h : c.mapGet k with
  | some v => rfl
  | none => rfl

theorem maxSize_set (c : LRUCache K W) (k : K) (v : Option W) :
    (c.set k v).maxSize = c.maxSize := by
  unfold LRUCache.set
  split
  · rfl
  · split <;> rfl

theorem maxSize_step (c : LRUCache K W) (op : LOp K W) :
    (c.step op).maxSize = c.maxSize := by
  cases op with
  | get k => exact maxSize_get c k
  | set k v => exact maxSize_set c k v
  | has k => rfl
  | clear => rfl

theorem inv_step (c : LRUCache K W) (op : LOp K W) (h : c.Inv) :
    (c.step op).Inv := by
  obtain ⟨hn, hs⟩ := h
  cases op with
  | get k =>
    refine ⟨keysNodup_get c k hn, ?_⟩
    show (c.get k).2.size ≤ max (c.get k).2.maxSize 1
    rw [size_get_eq c k, maxSize_get c k]
    exact hs
  | set k v =>
    refine ⟨keysNodup_set c k v hn, ?_⟩
    show (c.set k v).size ≤ max (c.set k v).maxSize 1
    rw [maxSize_set c k v]
    exact size_set_le c k v hs
  | has k => exact ⟨hn, hs⟩
  | clear =>
    refine ⟨List.nodup_nil, ?_⟩
    show (0 : Nat) ≤ max c.maxSize 1
    omega

theorem inv_runOps (c : LRUCache K W) (ops : List (LOp K W)) (h : c.Inv) :
    (c.runOps ops).Inv ∧ (c.runOps ops).maxSize = c.maxSize := by
  induction ops generalizing c with
  | nil => exact ⟨h, rfl⟩
  | cons op tl ih =>
    have h1 := inv_step c op h
    have h2 := maxSize_step c op
    have := ih (c.step op) h1
    exact ⟨this.1, this.2.trans h2⟩

end LRULemmas

/-! Instrumented cache lemmas. -/

section TrackedLemmas

variable {K : Type u} {W : Type v} [DecidableEq K]

theorem tracked_get_hit (c : TrackedLRUCache K W) {k : K} {v : W}
    (h : lookupKey c.base.cache k = some (some v)) :
    c.get k = (some v,
      ⟨⟨eraseKey c.base.cache k ++ [(k, some v)], c.base.maxSize⟩,
        c.hits + 1, c.misses⟩) := by
  unfold TrackedLRUCache.get
  rw [lru_get_hit c.base h]

theorem tracked_get_miss (c : TrackedLRUCache K W) {k : K}
    (h : (lookupKey c.base.cache k).join = none) :
    c.get k = (none, ⟨c.base, c.hits, c.misses + 1⟩) := by
  unfold TrackedLRUCache.get
  rw [lru_get_miss c.base h]

theorem counters_step (c : TrackedLRUCache K W) (op : TOp K W) :
    (c.step op).hits + (c.step op).misses
      = c.hits + c.misses + (if op.isGet then 1 else 0) := by
  cases op with
  | get k =>
    show (c.get k).2.hits + (c.get k).2.misses = c.hits + c.misses + _
    unfold TrackedLRUCache.get
    rcases hg : c.base.get k with ⟨o, b⟩
    cases o with
    | some v =>
      show c.hits + 1 + c.misses = c.hits + c.misses + (if (TOp.get (W := W) k).isGet then 1 else 0)
      simp only [TOp.isGet, if_true]
      omega
    | none =>
      show c.hits + (c.misses + 1) = c.hits + c.misses + (if (TOp.get (W := W) k).isGet then 1 else 0)
      simp only [TOp.isGet, if_true]
      omega
  | set k v => simp [TrackedLRUCache.step, TrackedLRUCache.set, TOp.isGet]
  | has k => simp [TrackedLRUCache.step, TOp.isGet]
  | clear => simp [TrackedLRUCache.step, TrackedLRUCache.clear, TOp.isGet]

theorem counters_runOps (c : TrackedLRUCache K W) (ops : List (TOp K W)) :
    (c.runOps ops).hits + (c.runOps ops).misses
      = c.hits + c.misses + countGets ops := by
  induction ops generalizing c with
  | nil => rfl
  | cons op tl ih =>
    show ((c.step op).runOps tl).hits + ((c.step op).runOps tl).misses = _
    rw [ih (c.step op), counters_step c op]
    unfold countGets
    rw [List.countP_cons]
    omega

end TrackedLemmas

/-! Parse adapter lemmas. -/

section ParseLemmas

variable {V : Type}

theorem resolveParseArgs_no_reviver (arg2 : ParseArg2)
    (argOpts : Option OptionsObj) (hrev : arg2 ≠ ParseArg2.reviverFn) :
    resolveParseArgs arg2 argOpts
      = (false, (resolveParseArgs arg2 argOpts).2) := by
  cases arg2 with
  | noArg => rfl
  | reviverFn => exact absurd rfl hrev
  | optsObj o => cases argOpts <;> rfl

theorem parseRun_cached (engine : ParseEngine V)
    (c : TrackedLRUCache String (Option V)) (src : String)
    (arg2 : ParseArg2) (argOpts : Option OptionsObj) (x : Option V)
    (hrev : arg2 ≠ ParseArg2.reviverFn)
    (hl : lookupKey c.base.cache
        (parseKey src (resolveParseArgs arg2 argOpts).2 false) = some (some x)) :
    parseRun engine c src arg2 argOpts
      = (Except.ok x,
          ⟨⟨eraseKey c.base.cache
                (parseKey src (resolveParseArgs arg2 argOpts).2 false)
              ++ [(parseKey src (resolveParseArgs arg2 argOpts).2 false, some x)],
              c.base.maxSize⟩,
            c.hits + 1, c.misses⟩) := by
  unfold parseRun
  rw [resolveParseArgs_no_reviver arg2 argOpts hrev]
  simp only [Bool.false_eq_true, if_false]
  rw [tracked_get_hit c hl]

theorem parseRun_uncached (engine : ParseEngine V)
    (c : TrackedLRUCache String (Option V)) (src : String)
    (arg2 : ParseArg2) (argOpts : Option OptionsObj)
    (hrev : arg2 ≠ ParseArg2.reviverFn)
    (hl : (lookupKey c.base.cache
        (parseKey src (resolveParseArgs arg2 argOpts).2 false)).join = none) :
    parseRun engine c src arg2 argOpts
      = match engine src (resolveParseArgs arg2 argOpts).2 false with
        | none =>
          (Except.ok none,
            TrackedLRUCache.set ⟨c.base, c.hits, c.misses + 1⟩
              (parseKey src (resolveParseArgs arg2 argOpts).2 false) (some none))
        | some doc =>
          match doc.errors, doc.silent with
          | e :: _, false =>
            (Except.error e, (⟨c.base, c.hits, c.misses + 1⟩ :
              TrackedLRUCache String (Option V)))
          | _, _ =>
            (Except.ok doc.value,
              TrackedLRUCache.set ⟨c.base, c.hits, c.misses + 1⟩
                (parseKey src (resolveParseArgs arg2 argOpts).2 false)
                (some doc.value)) := by
  unfold parseRun
  rw [resolveParseArgs_no_reviver arg2 argOpts hrev]
  simp only [Bool.false_eq_true, if_false]
  rw [tracked_get_miss c hl]

theorem parse_second_call_aux (engine : ParseEngine V)
    (st : TrackedLRUCache String (Option V)) (src : String)
    (arg2 : ParseArg2) (argOpts : Option OptionsObj)
    (hrev : arg2 ≠ ParseArg2.reviverFn)
    (hn : st.base.KeysNodup)
    (hok : ∀ e, (parseRun engine st src arg2 argOpts).1 ≠ Except.error e)
    (hl : (lookupKey st.base.cache
        (parseKey src (resolveParseArgs arg2 argOpts).2 false)).join = none) :
    (parseRun engine (parseRun engine st src arg2 argOpts).2 src arg2 argOpts).1
        = (parseRun engine st src arg2 argOpts).1
    ∧ (parseRun engine (parseRun engine st src arg2 argOpts).2 src arg2 argOpts).2.hits
        = (parseRun engine st src arg2 argOpts).2.hits + 1
    ∧ (parseRun engine (parseRun engine st src arg2 argOpts).2 src arg2 argOpts).2.misses
        = (parseRun engine st src arg2 argOpts).2.misses := by
  have h1 := parseRun_uncached engine st src arg2 argOpts hrev hl
  rw [h1] at hok ⊢
  cases he : engine src (resolveParseArgs arg2 argOpts).2 false with
  | none =>
    dsimp only
    have hl' : lookupKey (TrackedLRUCache.set
        (⟨st.base, st.hits, st.misses + 1⟩ : TrackedLRUCache String (Option V))
        (parseKey src (resolveParseArgs arg2 argOpts).2 false)
        (some none)).base.cache
        (parseKey src (resolveParseArgs arg2 argOpts).2 false)
        = some (some none) :=
      lookupKey_set_self st.base _ (some none) hn
    rw [parseRun_cached engine _ src arg2 argOpts none hrev hl']
    exact ⟨rfl, rfl, rfl⟩
  | some doc =>
    obtain ⟨errs, warns, sil, val⟩ := doc
    rw [he] at hok
    cases errs with
    | cons e tl =>
      cases sil with
      | false => exact absurd rfl (hok e)
      | true =>
        dsimp only
        have hl' : lookupKey (TrackedLRUCache.set
            (⟨st.base, st.hits, st.misses + 1⟩ : TrackedLRUCache String (Option V))
            (parseKey src (resolveParseArgs arg2 argOpts).2 false)
            (some val)).base.cache
            (parseKey src (resolveParseArgs arg2 argOpts).2 false)
            = some (some val) :=
          lookupKey_set_self st.base _ (some val) hn
        rw [parseRun_cached engine _ src arg2 argOpts val hrev hl']
        exact ⟨rfl, rfl, rfl⟩
    | nil =>
      cases sil with
      | false =>
        dsimp only
        have hl' : lookupKey (TrackedLRUCache.set
            (⟨st.base, st.hits, st.misses + 1⟩ : TrackedLRUCache String (Option V))
            (parseKey src (resolveParseArgs arg2 argOpts).2 false)
            (some val)).base.cache
            (parseKey src (resolveParseArgs arg2 argOpts).2 false)
            = some (some val) :=
          lookupKey_set_self st.base _ (some val) hn
        rw [parseRun_cached engine _ src arg2 argOpts val hrev hl']
        exact ⟨rfl, rfl, rfl⟩
      | true =>
        dsimp only
        have hl' : lookupKey (TrackedLRUCache.set
            (⟨st.base, st.hits, st.misses + 1⟩ : TrackedLRUCache String (Option V))
            (parseKey src (resolveParseArgs arg2 argOpts).2 false)
            (some val)).base.cache
            (parseKey src (resolveParseArgs arg2 argOpts).2 false)
            = some (some val) :=
          lookupKey_set_self st.base _ (some val) hn
        rw [parseRun_cached engine _ src arg2 argOpts val hrev hl']
        exact ⟨rfl, rfl, rfl⟩

end ParseLemmas

/-! Stringify adapter lemmas. -/

theorem resolveStringifyArgs_fst (r : ReplArg) (o : StrOptArg) :
    (resolveStringifyArgs r o).1 = r.isFnOrArr := by
  cases r <;> cases o <;> rfl

theorem beq_undef_false_of_canCache {value : SVal}
    (h : canCacheVal value = true) : (value == SVal.undef) = false := by
  cases value <;> first
    | rfl
    | (exfalso; simp [canCacheVal] at h)

/-! `parseDocument` loop lemmas. -/

theorem pdLoop_silent (d : ComposedDoc) (hs : d.silent = true) :
    ∀ (l : List ComposedDoc) (n : Nat), parseDocLoop d l n = (d, n + l.length) := by
  intro l
  induction l with
  | nil => intro n; simp [parseDocLoop]
  | cons x xs ih =>
    intro n
    simp only [parseDocLoop, hs, if_true]
    rw [ih (n + 1)]
    simp only [List.length_cons]
    congr 1
    omega

/-! ### The claims -/

/-- C1, counterexample to the claim as stated: a reviver-free call is
cacheable in the claim's sense, but when the parsed document carries an
error under a non-silent log level, `parse` throws before the cache is
populated, so the second identical call misses again: with an engine
producing an error document, two calls from the empty cache leave
`hits = 0` and `misses = 2`, where the claim requires the second call
to increment `hits` and leave `misses` unchanged. -/
theorem C1_counterexample :
    (parseRun (fun _ _ _ => some ⟨["bad"], [], false, none⟩)
        (parseRun (V := Unit) (fun _ _ _ => some ⟨["bad"], [], false, none⟩)
          ⟨⟨[], 2000⟩, 0, 0⟩ "x" ParseArg2.noArg none).2
        "x" ParseArg2.noArg none).2.hits = 0
    ∧ (parseRun (fun _ _ _ => some ⟨["bad"], [], false, none⟩)
        (parseRun (V := Unit) (fun _ _ _ => some ⟨["bad"], [], false, none⟩)
          ⟨⟨[], 2000⟩, 0, 0⟩ "x" ParseArg2.noArg none).2
        "x" ParseArg2.noArg none).2.misses = 2 := by
  constructor <;> rfl

/-- C1 (amended): for every cacheable input — a reviver-free `parse`
call — whose first call returns normally (does not throw), calling
`parse` twice with identical source and options yields equal results,
and the second call increments the parse cache's `hits` counter by
exactly one and leaves `misses` unchanged. -/
theorem C1_parse_idempotent_cacheable {V : Type} (engine : ParseEngine V)
    (st : TrackedLRUCache String (Option V)) (src : String)
    (arg2 : ParseArg2) (argOpts : Option OptionsObj)
    (hrev : arg2 ≠ ParseArg2.reviverFn)
    (hn : st.base.KeysNodup)
    (hok : ∀ e, (parseRun engine st src arg2 argOpts).1 ≠ Except.error e) :
    (parseRun engine (parseRun engine st src arg2 argOpts).2 src arg2 argOpts).1
        = (parseRun engine st src arg2 argOpts).1
    ∧ (parseRun engine (parseRun engine st src arg2 argOpts).2 src arg2 argOpts).2.hits
        = (parseRun engine st src arg2 argOpts).2.hits + 1
    ∧ (parseRun engine (parseRun engine st src arg2 argOpts).2 src arg2 argOpts).2.misses
        = (parseRun engine st src arg2 argOpts).2.misses := by
  match hl : lookupKey st.base.cache
      (parseKey src (resolveParseArgs arg2 argOpts).2 false) with
  | some (some v) =>
    have h1 := parseRun_cached engine st src arg2 argOpts v hrev hl
    rw [h1]
    dsimp only
    have hl₁ : lookupKey
        ((⟨⟨eraseKey st.base.cache
              (parseKey src (resolveParseArgs arg2 argOpts).2 false)
            ++ [(parseKey src (resolveParseArgs arg2 argOpts).2 false, some v)],
            st.base.maxSize⟩, st.hits + 1, st.misses⟩ :
          TrackedLRUCache String (Option V))).base.cache
        (parseKey src (resolveParseArgs arg2 argOpts).2 false) = some (some v) :=
      lookupKey_append_last_self (lookupKey_eraseKey_self hn)
    rw [parseRun_cached engine _ src arg2 argOpts v hrev hl₁]
    exact ⟨rfl, rfl, rfl⟩
  | some none =>
    exact parse_second_call_aux engine st src arg2 argOpts hrev hn hok
      (by rw [hl]; rfl)
  | none =>
    exact parse_second_call_aux engine st src arg2 argOpts hrev hn hok
      (by rw [hl]; rfl)

/-- C1 witness: the amended statement at a concrete engine mapping
every source to a clean document with value `some 7`, starting from the
empty cache: the two calls agree and the second one is a hit. -/
theorem C1_witness :
    (parseRun (fun _ _ _ => some ⟨[], [], false, some 7⟩)
        (parseRun (V := Nat) (fun _ _ _ => some ⟨[], [], false, some 7⟩)
          ⟨⟨[], 2000⟩, 0, 0⟩ "a: 1" ParseArg2.noArg none).2
        "a: 1" ParseArg2.noArg none).1
      = (parseRun (V := Nat) (fun _ _ _ => some ⟨[], [], false, some 7⟩)
          ⟨⟨[], 2000⟩, 0, 0⟩ "a: 1" ParseArg2.noArg none).1
    ∧ (parseRun (fun _ _ _ => some ⟨[], [], false, some 7⟩)
        (parseRun (V := Nat) (fun _ _ _ => some ⟨[], [], false, some 7⟩)
          ⟨⟨[], 2000⟩, 0, 0⟩ "a: 1" ParseArg2.noArg none).2
        "a: 1" ParseArg2.noArg none).2.hits
      = (parseRun (V := Nat) (fun _ _ _ => some ⟨[], [], false, some 7⟩)
          ⟨⟨[], 2000⟩, 0, 0⟩ "a: 1" ParseArg2.noArg none).2.hits + 1 := by
  have h := C1_parse_idempotent_cacheable
    (fun _ _ _ => some ⟨[], [], false, some 7⟩)
    (⟨⟨[], 2000⟩, 0, 0⟩ : TrackedLRUCache String (Option Nat))
    "a: 1" ParseArg2.noArg none (by intro h; cases h) (by decide)
    (by intro e he; exact Except.noConfusion he)
  exact ⟨h.1, h.2.1⟩

/-- C4: a `parse` call supplying a reviver function, and a `stringify`
call supplying a replacer function or array, leave the corresponding
cache entirely unchanged — contents, hits and misses — for every
source, value, options and engine behaviour. -/
theorem C4_reviver_replacer_bypass_cache {V : Type} (engine : ParseEngine V)
    (st : TrackedLRUCache String (Option V)) (src : String)
    (argOpts : Option OptionsObj)
    (render : SVal → Bool → Option OptionsObj → String)
    (renderDoc : Option OptionsObj → String) (numToStr : ℚ → String)
    (sst : TrackedLRUCache String String) (value : SVal)
    (replacer : ReplArg) (optArg : StrOptArg)
    (hr : replacer.isFnOrArr = true) :
    (parseRun engine st src ParseArg2.reviverFn argOpts).2 = st
    ∧ (stringifyRun render renderDoc numToStr sst value replacer optArg).2 = sst := by
  constructor
  · show (match engine src argOpts true with
      | none => (Except.ok none, st)
      | some doc =>
        match doc.errors, doc.silent with
        | e :: _, false => (Except.error e, st)
        | _, _ => (Except.ok doc.value, st)).2 = st
    cases engine src argOpts true with
    | none => rfl
    | some doc =>
      obtain ⟨errs, warns, sil, val⟩ := doc
      cases errs <;> cases sil <;> rfl
  · cases replacer with
    | noRepl => simp [ReplArg.isFnOrArr] at hr
    | objRepl o => simp [ReplArg.isFnOrArr] at hr
    | funcRepl =>
      unfold stringifyRun resolveStringifyArgs
      simp only [ReplArg.isFnOrArr, if_true]
      split
      · rfl
      · simp only [Bool.not_true, Bool.false_and, Bool.false_eq_true, if_false]
        split <;> rfl
    | arrRepl =>
      unfold stringifyRun resolveStringifyArgs
      simp only [ReplArg.isFnOrArr, if_true]
      split
      · rfl
      · simp only [Bool.not_true, Bool.false_and, Bool.false_eq_true, if_false]
        split <;> rfl

/-- C4 witness: the statement evaluated at a concrete engine and empty
caches: a reviver-bearing parse and a function-replacer stringify leave
their caches untouched. -/
theorem C4_witness :
    (parseRun (fun _ _ _ => some ⟨[], [], false, some 7⟩)
        (⟨⟨[], 2000⟩, 0, 0⟩ : TrackedLRUCache String (Option Nat))
        "a: 1" ParseArg2.reviverFn none).2
      = (⟨⟨[], 2000⟩, 0, 0⟩ : TrackedLRUCache String (Option Nat))
    ∧ (stringifyRun (fun _ _ _ => "out\n") (fun _ => "doc\n") (fun _ => "1")
        (⟨⟨[], 2000⟩, 0, 0⟩ : TrackedLRUCache String String)
        (SVal.str "hello") ReplArg.funcRepl StrOptArg.noOpt).2
      = (⟨⟨[], 2000⟩, 0, 0⟩ : TrackedLRUCache String String) :=
  C4_reviver_replacer_bypass_cache
    (fun _ _ _ => some ⟨[], [], false, some 7⟩)
    (⟨⟨[], 2000⟩, 0, 0⟩ : TrackedLRUCache String (Option Nat))
    "a: 1" none (fun _ _ _ => "out\n") (fun _ => "doc\n") (fun _ => "1")
    (⟨⟨[], 2000⟩, 0, 0⟩ : TrackedLRUCache String String)
    (SVal.str "hello") ReplArg.funcRepl StrOptArg.noOpt rfl

/-- C2, counterexample to the claim as stated: a store constructed with
capacity `0` does not keep `size ≤ capacity` — a single `set` on the
empty store evicts nothing (deleting the first key of an empty map is a
no-op) and then inserts, leaving one entry in a store whose capacity is
zero. -/
theorem C2_counterexample :
    ((LRUCache.empty Nat Nat 0).set 1 (some 1)).size = 1
    ∧ (LRUCache.empty Nat Nat 0).maxSize = 0 := by
  constructor <;> rfl

/-- C2 (amended): for every store of capacity at least `1`, the
invariant `size ≤ capacity` holds after every sequence of
get/set/has/clear operations from the fresh store (for capacity `0` the
implementation maintains `size ≤ 1` instead, behaving as capacity `1`);
inserting a new key with the store at capacity drops exactly one entry,
the least-recently-accessed one at the head of the recency order,
before appending the new entry; and re-inserting an existing key moves
it to the most-recently-used position without changing the size. -/
theorem C2_lru_bound_eviction_promotion {K W : Type} [DecidableEq K]
    (cap : Nat) (hcap : 1 ≤ cap) (ops : List (LOp K W))
    (c : LRUCache K W) (k : K) (v : Option W) :
    ((LRUCache.empty K W cap).runOps ops).size ≤ cap
    ∧ (c.has k = false → c.maxSize ≤ c.size →
        c.set k v = ⟨c.cache.tail ++ [(k, v)], c.maxSize⟩)
    ∧ (c.has k = true →
        c.set k v = ⟨eraseKey c.cache k ++ [(k, v)], c.maxSize⟩
        ∧ (c.set k v).size = c.size) := by
  refine ⟨?_, ?_, ?_⟩
  · have hinv : (LRUCache.empty K W cap).Inv :=
      ⟨List.nodup_nil, by simp [LRUCache.empty, LRUCache.size]⟩
    have h := inv_runOps (LRUCache.empty K W cap) ops hinv
    have hsz := h.1.2
    rw [h.2] at hsz
    simpa [LRUCache.empty, max_eq_left hcap] using hsz
  · intro hhas hsz
    have hnone : lookupKey c.cache k = none := by
      unfold LRUCache.has at hhas
      exact Option.not_isSome_iff_eq_none.1 (by simp [hhas])
    exact lru_set_evict c v hnone hsz
  · intro hhas
    have hsome : (lookupKey c.cache k).isSome := by
      unfold LRUCache.has at hhas
      exact hhas
    refine ⟨lru_set_existing c v hsome, ?_⟩
    rw [lru_set_existing c v hsome]
    show (eraseKey c.cache k ++ [(k, v)]).length = c.cache.length
    have := length_eraseKey_of_isSome hsome
    simp only [List.length_append, List.length_singleton]
    omega

/-- C2 witness: the amended statement evaluated at a concrete store of
capacity `2` holding two entries, re-inserting an existing key and
evicting on a fresh one. -/
theorem C2_witness :
    ((LRUCache.empty Nat Nat 2).runOps
        [LOp.set 1 (some 10), LOp.set 2 (some 20), LOp.set 3 (some 30)]).size ≤ 2
    ∧ (LRUCache.mk [(1, some 10), (2, some 20)] 2).set 3 (some 30)
        = ⟨[(2, some 20), (3, some 30)], 2⟩ := by
  have h1 := C2_lru_bound_eviction_promotion (K := Nat) (W := Nat) 2 (by decide)
    [LOp.set 1 (some 10), LOp.set 2 (some 20), LOp.set 3 (some 30)]
    (LRUCache.mk [(1, some 10), (2, some 20)] 2) 3 (some 30)
  refine ⟨h1.1, ?_⟩
  have h2 := h1.2.1 (by decide) (by decide)
  rw [h2]
  rfl

/-- C7: the instrumented cache's statistics are exact: after any
sequence of operations run from a state whose statistics were just
reset, the hit and miss counters add up to the number of `get`
operations performed (every `get` counts exactly one of the two), and
the exposed snapshot is exactly the hits, the misses, the hit rate
`H / (H + M)` (`0` when `H = M = 0`), and the store's current size. -/
theorem C7_hit_rate_exact {K W : Type} [DecidableEq K]
    (c : TrackedLRUCache K W) (ops : List (TOp K W)) :
    ((c.resetStats.runOps ops).hits + (c.resetStats.runOps ops).misses
        = countGets ops)
    ∧ ∀ d : TrackedLRUCache K W,
        d.stats = ⟨d.hits, d.misses,
          if d.hits + d.misses = 0 then 0
          else (d.hits : ℚ) / ((d.hits : ℚ) + (d.misses : ℚ)),
          d.base.cache.length⟩ := by
  constructor
  · rw [counters_runOps]
    simp [TrackedLRUCache.resetStats]
  · intro d
    rfl

/-- C9: `clearCaches()` empties both stores' contents and leaves both
hit/miss counter pairs at their previous values; `resetStats()` zeroes
the counters of a cache while leaving the stored entries and the size
unchanged; and the two operations commute (they are independent). -/
theorem C9_clear_and_resetStats_independent {V K W : Type}
    (g : GlobalCaches V) (c : TrackedLRUCache K W) :
    (clearCaches g).parseCache.base.cache = []
    ∧ (clearCaches g).stringifyCache.base.cache = []
    ∧ (clearCaches g).parseCache.hits = g.parseCache.hits
    ∧ (clearCaches g).parseCache.misses = g.parseCache.misses
    ∧ (clearCaches g).stringifyCache.hits = g.stringifyCache.hits
    ∧ (clearCaches g).stringifyCache.misses = g.stringifyCache.misses
    ∧ c.resetStats.base = c.base
    ∧ c.resetStats.size = c.size
    ∧ c.resetStats.hits = 0
    ∧ c.resetStats.misses = 0
    ∧ c.clear.resetStats = c.resetStats.clear := by
  exact ⟨rfl, rfl, rfl, rfl, rfl, rfl, rfl, rfl, rfl, rfl, rfl⟩

/-- C10: a key stored with value `undefined` is reported absent by
`get` — the returned value is `undefined`, the entry is not promoted
(the store is unchanged), and the instrumented cache counts a miss —
while `has` still reports the key present and the entry still occupies
a slot (erasing it would shrink the list); a key that is absent
altogether produces the identical `get` outcome, so the two cases
cannot be told apart through `get`. -/
theorem C10_undefined_value_indistinguishable {K W : Type} [DecidableEq K]
    (c : TrackedLRUCache K W) (k : K) :
    (lookupKey c.base.cache k = some none →
      c.get k = (none, ⟨c.base, c.hits, c.misses + 1⟩)
      ∧ c.has k = true
      ∧ (eraseKey c.base.cache k).length < c.base.cache.length)
    ∧ (lookupKey c.base.cache k = none →
      c.get k = (none, ⟨c.base, c.hits, c.misses + 1⟩)
      ∧ c.has k = false) := by
  constructor
  · intro h
    refine ⟨tracked_get_miss c (by rw [h]; rfl), ?_, ?_⟩
    · show (lookupKey c.base.cache k).isSome = true
      rw [h]
      rfl
    · exact length_eraseKey_lt_of_isSome (by rw [h]; rfl)
  · intro h
    refine ⟨tracked_get_miss c (by rw [h]; rfl), ?_⟩
    show (lookupKey c.base.cache k).isSome = false
    rw [h]
    rfl

/-- C10 witness: a concrete instrumented cache holding the single entry
`(0, undefined)`: `get 0` misses without promoting, `has 0` is true;
`get 1` behaves identically on the absent key `1`. -/
theorem C10_witness :
    (TrackedLRUCache.get (⟨⟨[(0, none)], 5⟩, 0, 0⟩ : TrackedLRUCache Nat Nat) 0
        = (none, ⟨⟨[(0, none)], 5⟩, 0, 1⟩)
      ∧ TrackedLRUCache.has (⟨⟨[(0, none)], 5⟩, 0, 0⟩ : TrackedLRUCache Nat Nat) 0 = true)
    ∧ TrackedLRUCache.get (⟨⟨[(0, none)], 5⟩, 0, 0⟩ : TrackedLRUCache Nat Nat) 1
        = (none, ⟨⟨[(0, none)], 5⟩, 0, 1⟩) := by
  have h0 := (C10_undefined_value_indistinguishable
    (⟨⟨[(0, none)], 5⟩, 0, 0⟩ : TrackedLRUCache Nat Nat) 0).1 (by decide)
  have h1 := (C10_undefined_value_indistinguishable
    (⟨⟨[(0, none)], 5⟩, 0, 0⟩ : TrackedLRUCache Nat Nat) 1).2 (by decide)
  exact ⟨⟨h0.1, h0.2.1⟩, h1.1⟩

/-- C3, counterexample to the claim as stated: the parse key derivation
serializes the options with `JSON.stringify`, which preserves property
insertion order and does not canonicalize, so two logically identical
calls — identical source, no reviver, and options objects holding the
same two fields with the same values in the two different insertion
orders — compute different cache keys. -/
theorem C3_counterexample :
    SameOptions
      [("indent", JsonVal.num 2), ("sortMapEntries", JsonVal.bool true)]
      [("sortMapEntries", JsonVal.bool true), ("indent", JsonVal.num 2)]
    ∧ parseKey "a: 1"
        (some [("indent", JsonVal.num 2), ("sortMapEntries", JsonVal.bool true)])
        false
      ≠ parseKey "a: 1"
        (some [("sortMapEntries", JsonVal.bool true), ("indent", JsonVal.num 2)])
        false := by
  constructor
  · decide
  · set_option maxRecDepth 8000 in decide

/-- C3 (amended): the cache key is a deterministic function of the raw
source text (or value), the exact `JSON.stringify` serialization of the
options object, and reviver presence: two calls whose options serialize
to the same string compute the same parse key, and likewise the same
stringify key.  The serialization keeps property insertion order, so
logically identical options objects are only guaranteed the same key
when their fields are in the same order; distinct serializations give
distinct keys only up to the accepted hash-collision risk. -/
theorem C3_key_determined_by_serialization (src : String)
    (o₁ o₂ : OptionsObj) (hasRev : Bool) (v : SVal) (numToStr : ℚ → String)
    (h : jsonStringify o₁ = jsonStringify o₂) :
    parseKey src (some o₁) hasRev = parseKey src (some o₂) hasRev
    ∧ stringifyKey numToStr v (some o₁) = stringifyKey numToStr v (some o₂) := by
  constructor
  · unfold parseKey
    rw [show (some o₁).getD ([] : OptionsObj) = o₁ from rfl,
      show (some o₂).getD ([] : OptionsObj) = o₂ from rfl, h]
  · unfold stringifyKey
    rw [show (some o₁).getD ([] : OptionsObj) = o₁ from rfl,
      show (some o₂).getD ([] : OptionsObj) = o₂ from rfl, h]

/-- C3 witness: the amended statement at a concrete source, options
object and value. -/
theorem C3_witness :
    parseKey "a: 1" (some [("indent", JsonVal.num 2)]) false
      = parseKey "a: 1" (some [("indent", JsonVal.num 2)]) false
    ∧ stringifyKey (fun _ => "1") (SVal.str "x")
        (some [("indent", JsonVal.num 2)])
      = stringifyKey (fun _ => "1") (SVal.str "x")
        (some [("indent", JsonVal.num 2)]) :=
  C3_key_determined_by_serialization "a: 1"
    [("indent", JsonVal.num 2)] [("indent", JsonVal.num 2)] false
    (SVal.str "x") (fun _ => "1") rfl

/-- C5: when the compose step yields at least two documents,
`parseDocument` keeps the first document; when that document's log
level is not `'silent'` it appends exactly one `MULTIPLE_DOCS` error —
carrying `range.slice(0, 2)` of the second document — to the first
document's error list and stops, having consumed exactly two composed
documents however many follow; the error follows the same log-level
suppression rule as engine errors: under a silent log level no error is
attached (and the loop instead drains the stream). -/
theorem C5_multiple_docs_guard (d₀ d₁ : ComposedDoc) (rest : List ComposedDoc) :
    (d₀.silent = false →
      parseDocumentRun (d₀ :: d₁ :: rest)
        = some ({ d₀ with errors := d₀.errors
            ++ [YError.multipleDocs (d₁.range.1, d₁.range.2.1)] }, 2))
    ∧ (d₀.silent = true →
      parseDocumentRun (d₀ :: d₁ :: rest)
        = some (d₀, (d₀ :: d₁ :: rest).length)) := by
  constructor
  · intro hs
    show some (parseDocLoop d₀ (d₁ :: rest) 1) = _
    unfold parseDocLoop
    rw [hs]
    rfl
  · intro hs
    show some (parseDocLoop d₀ (d₁ :: rest) 1) = _
    rw [pdLoop_silent d₀ hs (d₁ :: rest) 1]
    simp only [List.length_cons]
    congr 2
    omega

/-- C5 witness: parsing a two-document stream with a non-silent first
document yields the first document with the single `MULTIPLE_DOCS`
error carrying the second document's range start, having consumed two
documents; with a silent first document nothing is attached. -/
theorem C5_witness :
    parseDocumentRun [⟨(0, 6, 6), [], false⟩, ⟨(8, 14, 14), [], false⟩]
      = some (⟨(0, 6, 6), [YError.multipleDocs (8, 14)], false⟩, 2)
    ∧ parseDocumentRun [⟨(0, 6, 6), [], true⟩, ⟨(8, 14, 14), [], true⟩]
      = some (⟨(0, 6, 6), [], true⟩, 2) := by
  constructor
  · exact (C5_multiple_docs_guard ⟨(0, 6, 6), [], false⟩
      ⟨(8, 14, 14), [], false⟩ []).1 rfl
  · exact (C5_multiple_docs_guard ⟨(0, 6, 6), [], true⟩
      ⟨(8, 14, 14), [], true⟩ []).2 rfl

/-- C6: a `stringify` call reads or populates the stringify cache
exactly when no replacer function or array is supplied, the value is
not a pre-built document, and the value's runtime type is string,
boolean, finite non-negative-zero number, or null: outside these
conditions the cache — contents and counters — is left exactly as it
was; inside them the call performs exactly one cache lookup, either a
hit (hits incremented, store promoted) or a miss that increments
misses and stores the rendered text under the computed key. -/
theorem C6_stringify_cache_exact
    (render : SVal → Bool → Option OptionsObj → String)
    (renderDoc : Option OptionsObj → String) (numToStr : ℚ → String)
    (sst : TrackedLRUCache String String) (value : SVal)
    (replacer : ReplArg) (optArg : StrOptArg)
    (hn : sst.base.KeysNodup) :
    (¬(replacer.isFnOrArr = false ∧ isDocumentVal value = false
        ∧ canCacheVal value = true) →
      (stringifyRun render renderDoc numToStr sst value replacer optArg).2 = sst)
    ∧ (replacer.isFnOrArr = false → isDocumentVal value = false →
        canCacheVal value = true →
      ((stringifyRun render renderDoc numToStr sst value replacer optArg).2.hits
          = sst.hits + 1
        ∧ (stringifyRun render renderDoc numToStr sst value replacer optArg).2.misses
          = sst.misses)
      ∨ ((stringifyRun render renderDoc numToStr sst value replacer optArg).2.hits
          = sst.hits
        ∧ (stringifyRun render renderDoc numToStr sst value replacer optArg).2.misses
          = sst.misses + 1
        ∧ (stringifyRun render renderDoc numToStr sst value replacer optArg).2.has
            (stringifyKey numToStr value
              (normalizeStrOpt (resolveStringifyArgs replacer optArg).2))
          = true)) := by
  constructor
  · intro hc
    unfold stringifyRun
    dsimp only
    split
    · rfl
    · split
      · rename_i hcond
        exfalso
        apply hc
        simp only [Bool.and_eq_true, Bool.not_eq_true'] at hcond
        exact ⟨(resolveStringifyArgs_fst replacer optArg) ▸ hcond.1.1,
          hcond.1.2, hcond.2⟩
      · split <;> rfl
  · intro h1 h2 h3
    unfold stringifyRun
    dsimp only
    rw [beq_undef_false_of_canCache h3, Bool.false_and]
    simp only [Bool.false_eq_true, if_false]
    rw [resolveStringifyArgs_fst replacer optArg, h1, h2, h3]
    simp only [Bool.not_false, Bool.true_and, Bool.and_true, Bool.and_self,
      if_true]
    match hl : lookupKey sst.base.cache
        (stringifyKey numToStr value
          (normalizeStrOpt (resolveStringifyArgs replacer optArg).2)) with
    | some (some s) =>
      rw [tracked_get_hit sst hl]
      exact Or.inl ⟨rfl, rfl⟩
    | some none =>
      rw [tracked_get_miss sst (by rw [hl]; rfl)]
      refine Or.inr ⟨rfl, rfl, ?_⟩
      show (lookupKey ((sst.base).set
        (stringifyKey numToStr value
          (normalizeStrOpt (resolveStringifyArgs replacer optArg).2))
        (some (render value false
          (normalizeStrOpt (resolveStringifyArgs replacer optArg).2)))).cache
        (stringifyKey numToStr value
          (normalizeStrOpt (resolveStringifyArgs replacer optArg).2))).isSome = true
      rw [lookupKey_set_self sst.base _ _ hn]
      rfl
    | none =>
      rw [tracked_get_miss sst (by rw [hl]; rfl)]
      refine Or.inr ⟨rfl, rfl, ?_⟩
      show (lookupKey ((sst.base).set
        (stringifyKey numToStr value
          (normalizeStrOpt (resolveStringifyArgs replacer optArg).2))
        (some (render value false
          (normalizeStrOpt (resolveStringifyArgs replacer optArg).2)))).cache
        (stringifyKey numToStr value
          (normalizeStrOpt (resolveStringifyArgs replacer optArg).2))).isSome = true
      rw [lookupKey_set_self sst.base _ _ hn]
      rfl

/-- C6 witness: the statement at a concrete cacheable call (a plain
string value, no replacer) from the empty cache, and a concrete
non-cacheable one (an array value). -/
theorem C6_witness :
    (((stringifyRun (fun _ _ _ => "hello\n") (fun _ => "d\n") (fun _ => "1")
        (⟨⟨[], 2000⟩, 0, 0⟩ : TrackedLRUCache String String)
        (SVal.str "hello") ReplArg.noRepl StrOptArg.noOpt).2.hits
        = (⟨⟨[], 2000⟩, 0, 0⟩ : TrackedLRUCache String String).hits + 1
      ∧ (stringifyRun (fun _ _ _ => "hello\n") (fun _ => "d\n") (fun _ => "1")
          (⟨⟨[], 2000⟩, 0, 0⟩ : TrackedLRUCache String String)
          (SVal.str "hello") ReplArg.noRepl StrOptArg.noOpt).2.misses
        = (⟨⟨[], 2000⟩, 0, 0⟩ : TrackedLRUCache String String).misses)
      ∨ ((stringifyRun (fun _ _ _ => "hello\n") (fun _ => "d\n") (fun _ => "1")
          (⟨⟨[], 2000⟩, 0, 0⟩ : TrackedLRUCache String String)
          (SVal.str "hello") ReplArg.noRepl StrOptArg.noOpt).2.hits
        = (⟨⟨[], 2000⟩, 0, 0⟩ : TrackedLRUCache String String).hits
      ∧ (stringifyRun (fun _ _ _ => "hello\n") (fun _ => "d\n") (fun _ => "1")
          (⟨⟨[], 2000⟩, 0, 0⟩ : TrackedLRUCache String String)
          (SVal.str "hello") ReplArg.noRepl StrOptArg.noOpt).2.misses
        = (⟨⟨[], 2000⟩, 0, 0⟩ : TrackedLRUCache String String).misses + 1
      ∧ (stringifyRun (fun _ _ _ => "hello\n") (fun _ => "d\n") (fun _ => "1")
          (⟨⟨[], 2000⟩, 0, 0⟩ : TrackedLRUCache String String)
          (SVal.str "hello") ReplArg.noRepl StrOptArg.noOpt).2.has
          (stringifyKey (fun _ => "1") (SVal.str "hello")
            (normalizeStrOpt (resolveStringifyArgs ReplArg.noRepl
              StrOptArg.noOpt).2)) = true))
    ∧ (stringifyRun (fun _ _ _ => "arr\n") (fun _ => "d\n") (fun _ => "1")
        (⟨⟨[], 2000⟩, 0, 0⟩ : TrackedLRUCache String String)
        SVal.arr ReplArg.noRepl StrOptArg.noOpt).2
      = (⟨⟨[], 2000⟩, 0, 0⟩ : TrackedLRUCache String String) := by
  constructor
  · exact (C6_stringify_cache_exact (fun _ _ _ => "hello\n") (fun _ => "d\n")
      (fun _ => "1") (⟨⟨[], 2000⟩, 0, 0⟩ : TrackedLRUCache String String)
      (SVal.str "hello") ReplArg.noRepl StrOptArg.noOpt (by decide)).2 rfl rfl rfl
  · exact (C6_stringify_cache_exact (fun _ _ _ => "arr\n") (fun _ => "d\n")
      (fun _ => "1") (⟨⟨[], 2000⟩, 0, 0⟩ : TrackedLRUCache String String)
      SVal.arr ReplArg.noRepl StrOptArg.noOpt (by decide)).1
      (by intro h; exact absurd h.2.2 (by decide))

/-- C8, counterexample to the claim as stated: the claim says any bare
number below 1 means no explicit indent, but the implementation rounds
first and only then compares: `0.6` rounds to `1` and yields
`{ indent: 1 }`; likewise a bare string is not used as an indent width
verbatim but clamped through the number rule, so a 10-character string
yields `{ indent: 8 }`, not width 10. -/
theorem C8_counterexample :
    ((3 : ℚ) / 5 < 1
      ∧ normalizeStrOpt (StrOptArg.numOpt (3 / 5))
        = some [("indent", JsonVal.num 1)])
    ∧ normalizeStrOpt (StrOptArg.strOpt "aaaaaaaaaa")
      = some [("indent", JsonVal.num 8)] := by
  refine ⟨⟨by norm_num, ?_⟩, ?_⟩
  · have h : jsRound (3 / 5) = 1 := by norm_num [jsRound]
    simp [normalizeStrOpt, normalizeIndentNum, h]
  · have h : jsRound (("aaaaaaaaaa".length : Nat) : ℚ) = 10 := by
      rw [show ("aaaaaaaaaa".length : Nat) = 10 from rfl]
      norm_num [jsRound]
    simp [normalizeStrOpt, normalizeIndentNum, h]

/-- C8 (amended): a bare-string options argument makes the whole
`stringify` call behave exactly as a bare number equal to the string's
length (so long strings are clamped like long numbers); a bare-number
options argument is first rounded with `Math.round`, and then the
rounded value is compared: a rounded value below 1 means no explicit
indent (engine default), a rounded value above 8 clamps to
`{ indent: 8 }`, and otherwise the rounded value is the indent. -/
theorem C8_legacy_option_forms
    (render : SVal → Bool → Option OptionsObj → String)
    (renderDoc : Option OptionsObj → String) (numToStr : ℚ → String)
    (sst : TrackedLRUCache String String) (value : SVal)
    (replacer : ReplArg) (s : String) (q : ℚ) :
    stringifyRun render renderDoc numToStr sst value replacer
        (StrOptArg.strOpt s)
      = stringifyRun render renderDoc numToStr sst value replacer
        (StrOptArg.numOpt (s.length : ℚ))
    ∧ (jsRound q < 1 → normalizeStrOpt (StrOptArg.numOpt q) = none)
    ∧ (1 ≤ jsRound q → jsRound q ≤ 8 →
        normalizeStrOpt (StrOptArg.numOpt q)
          = some [("indent", JsonVal.num (jsRound q))])
    ∧ (8 < jsRound q → normalizeStrOpt (StrOptArg.numOpt q)
        = some [("indent", JsonVal.num 8)]) := by
  refine ⟨?_, ?_, ?_, ?_⟩
  · cases replacer <;> rfl
  · intro h
    simp only [normalizeStrOpt, normalizeIndentNum]
    rw [if_pos h]
  · intro h1 h2
    simp only [normalizeStrOpt, normalizeIndentNum]
    rw [if_neg (by omega), if_neg (by omega)]
  · intro h
    simp only [normalizeStrOpt, normalizeIndentNum]
    rw [if_neg (by omega), if_pos h]

/-- C8 witness: the amended statement at a concrete call with the
string `"abc"` (equivalent to indent number 3) and the number `5`
(kept as indent 5). -/
theorem C8_witness :
    stringifyRun (fun _ _ _ => "v\n") (fun _ => "d\n") (fun _ => "1")
        (⟨⟨[], 2000⟩, 0, 0⟩ : TrackedLRUCache String String)
        (SVal.str "x") ReplArg.noRepl (StrOptArg.strOpt "abc")
      = stringifyRun (fun _ _ _ => "v\n") (fun _ => "d\n") (fun _ => "1")
        (⟨⟨[], 2000⟩, 0, 0⟩ : TrackedLRUCache String String)
        (SVal.str "x") ReplArg.noRepl
        (StrOptArg.numOpt (("abc".length : Nat) : ℚ))
    ∧ normalizeStrOpt (StrOptArg.numOpt 5)
      = some [("indent", JsonVal.num (jsRound 5))] := by
  have h := C8_legacy_option_forms (fun _ _ _ => "v\n") (fun _ => "d\n")
    (fun _ => "1") (⟨⟨[], 2000⟩, 0, 0⟩ : TrackedLRUCache String String)
    (SVal.str "x") ReplArg.noRepl "abc" 5
  exact ⟨h.1, h.2.2.1 (by norm_num [jsRound]) (by norm_num [jsRound])⟩

end Yaml
